import Mathlib

/-!
Shallow embedding of `src/extract_schemas.py` (schema-visualization script).

Python type expressions, as seen through `typing.get_origin` / `typing.get_args`,
are modelled by `TypeExpr`:
  * `noneT`      : `type(None)` (`NoneType`);
  * `union args` : a type whose origin is `typing.Union` (this covers both
                   `Optional[T]` and `Union[...]`, which are the same object);
  * `listT args` : origin `list` (covers `List[...]`, `list[...]`, and the
                   unparameterized aliases, whose `get_args` is empty);
  * `dictT args` : origin `dict`;
  * `setT args`  : origin `set` — no dedicated branch in the code, so it falls
                   into the default branch; the alias's `__name__` proxies to
                   the origin class, i.e. `"set"`;
  * `tupleT args`: origin `tuple`, same situation, `__name__` = `"tuple"`;
  * `named n`    : any other object with a `__name__` attribute (plain classes);
  * `unnamed s`  : an object without `__name__`, whose `str()` is `s`.
-/

inductive TypeExpr where
  | noneT : TypeExpr
  | union (args : List TypeExpr) : TypeExpr
  | listT (args : List TypeExpr) : TypeExpr
  | dictT (args : List TypeExpr) : TypeExpr
  | setT (args : List TypeExpr) : TypeExpr
  | tupleT (args : List TypeExpr) : TypeExpr
  | named (n : String) : TypeExpr
  | unnamed (s : String) : TypeExpr
deriving Repr

/-- The dictionary returned by `parse_field_type`: keys `display` and `types`. -/
structure TypeInfo where
  display : String
  types : List String
deriving DecidableEq, Repr

/-- Membership test `type(None) in args` of the Optional check (line 80). -/
def contains_none : List TypeExpr → Bool
  | [] => false
  | .noneT :: _ => true
  | _ :: rest => contains_none rest

mutual

/-- Function `parse_field_type` (lines 58-109): resolves a type expression into a
display string and the list of leaf type names used for edges. -/
def parse_field_type : TypeExpr → TypeInfo
  | .union args =>
      let type_names := union_type_names args
      if args.length == 2 && contains_none args then
        { display := "Optional[" ++ first_non_none_display args ++ "]",
          types := type_names }
      else
        { display := "Union[" ++ String.intercalate ", " (union_type_displays args) ++ "]",
          types := type_names }
  | .listT [] => { display := "List", types := [] }
  | .listT (a :: _) =>
      { display := "List[" ++ (parse_field_type a).display ++ "]",
        types := (parse_field_type a).types }
  | .dictT [k, v] =>
      { display := "Dict[" ++ (parse_field_type k).display ++ ", "
                    ++ (parse_field_type v).display ++ "]",
        types := (parse_field_type k).types ++ (parse_field_type v).types }
  | .dictT _ => { display := "Dict", types := [] }
  | .setT _ => { display := "set", types := ["set"] }
  | .tupleT _ => { display := "tuple", types := ["tuple"] }
  | .noneT => { display := "NoneType", types := ["NoneType"] }
  | .named n => { display := n, types := [n] }
  | .unnamed s => { display := s, types := [] }

/-- The `type_names` accumulator of the Union loop (lines 70-79). -/
def union_type_names : List TypeExpr → List String
  | [] => []
  | .noneT :: rest => "NoneType" :: union_type_names rest
  | a :: rest => (parse_field_type a).types ++ union_type_names rest

/-- The `type_displays` accumulator of the Union loop (lines 70-79). -/
def union_type_displays : List TypeExpr → List String
  | [] => []
  | .noneT :: rest => "None" :: union_type_displays rest
  | a :: rest => (parse_field_type a).display :: union_type_displays rest

/-- The display entry of `parse_field_type(non_none_types[0])` in the
Optional case (lines 82-84): the display of the first non-`None` argument (re-parsed, as in
the source).  On a union whose arguments are all `None` the Python code would
raise `IndexError`; such a union cannot be produced by `typing` (unions
deduplicate), and the model returns `""` there. -/
def first_non_none_display : List TypeExpr → String
  | [] => ""
  | .noneT :: rest => first_non_none_display rest
  | a :: _ => (parse_field_type a).display

end

/-- Set `BUILTIN_TYPES` (lines 17-50): `set(sys.builtin_module_names)` — a
platform-dependent set, passed here as the parameter `builtin_module_names` —
union the literal names from the source.  Python-set membership is modelled by
`List.contains`. -/
def BUILTIN_TYPES (builtin_module_names : List String) : List String :=
  builtin_module_names ++
    ["int", "str", "float", "bool", "list", "dict", "set", "tuple", "NoneType",
     "Any", "Optional", "Union", "Callable", "Type", "Iterable", "Iterator",
     "Sequence", "Mapping", "ByteString", "bytes", "bytearray", "memoryview",
     "Text", "Complex", "Number", "object", "type", "frozenset", "property",
     "staticmethod", "classmethod", "function"]

/-- The character class `[a-zA-Z0-9_]` of the regex in `sanitize_name`.
`Char.isAlphanum` is exactly ASCII `[a-zA-Z0-9]`, matching the Python
pattern's ASCII classes. -/
def sanitize_keep (c : Char) : Bool :=
  c.isAlphanum || c == '_'

/-- Function `sanitize_name` (lines 53-55): `re.sub(r"[^a-zA-Z0-9_]", "_", name)`
replaces every character outside the class, one `_` per character. -/
def sanitize_name (name : String) : String :=
  String.mk (name.data.map (fun c => if sanitize_keep c then c else '_'))

/-!
## The graph built by `visualize_schemas` (lines 286-428)

An entry of `class_map` as produced by `build_class_map` (lines 227-232 and
265-271).  Default values (`default` / `has_default`) are captured by the
source only to decorate the display string in node labels; labels are pure
presentation strings and are elided from the graph model, which keeps the
attributes every claim is about: node name, shape, and border style, and the
edge endpoints/ports.
-/

structure ClassEntry where
  fields : List (String × TypeInfo)
  module : Option String
  «local» : Bool
  is_enum : Bool
deriving DecidableEq, Repr

/-- A node registered with `G.add_node`, keeping the attributes relevant to
the claims: its (sanitized) name, its `shape`, and its `style`. -/
structure VizNode where
  name : String
  shape : String
  style : Option String
deriving DecidableEq, Repr

/-- An edge registered with `G.add_edge` (lines 382-388). -/
structure VizEdge where
  tail : String
  head : String
  tailport : String
  headport : String
deriving DecidableEq, Repr

/-- The node created for one `class_map` entry (lines 317-369): a plaintext
table node when the entry has fields (enum or not), a dashed placeholder box
otherwise. -/
def node_of_entry (class_name : String) (info : ClassEntry) : VizNode :=
  if info.fields ≠ [] then
    { name := sanitize_name class_name, shape := "plaintext", style := none }
  else
    { name := sanitize_name class_name, shape := "box", style := some "dashed" }

/-- The first pass of `visualize_schemas` over `class_map` (lines 316-369):
one `add_node` per entry.  (The `Legend` node is added only after all class
edges, line 413, and is not part of the class-node model.) -/
def viz_nodes (class_map : List (String × ClassEntry)) : List VizNode :=
  class_map.map (fun p => node_of_entry p.1 p.2)

/-- The edges produced by one field (lines 376-400): one edge per leaf type
name that is nonempty, not a built-in, and whose sanitized name is among the
existing node names. -/
def edges_of_field (builtin_module_names : List String) (node_names : List String)
    (sanitized_class_name : String) (field_name : String) (types : List String) :
    List VizEdge :=
  types.filterMap (fun base_type_name =>
    if base_type_name ≠ "" ∧ ¬ (BUILTIN_TYPES builtin_module_names).contains base_type_name then
      let sanitized_base_type := sanitize_name base_type_name
      if node_names.contains sanitized_base_type then
        some { tail := sanitized_class_name,
               head := sanitized_base_type,
               tailport := sanitize_name field_name ++ "_type",
               headport := "class_header" }
      else none
    else none)

/-- The second pass of `visualize_schemas` (lines 371-400): edges are added
only after every class node exists, checking membership in `G.nodes()`. -/
def viz_edges (builtin_module_names : List String)
    (class_map : List (String × ClassEntry)) : List VizEdge :=
  let node_names := (viz_nodes class_map).map VizNode.name
  class_map.flatMap (fun p =>
    p.2.fields.flatMap (fun f =>
      edges_of_field builtin_module_names node_names (sanitize_name p.1) f.1 f.2.types))

/-!
## `build_class_map` (lines 112-283)

The surrounding Python world is modelled by:
  * `env`: the finite collection of class definitions that exist in the
    interpreter (each with its `__name__`, `__module__`, whether it is an
    `Enum` subclass, and its annotated fields as type expressions);
  * `resolve`: the three-step name resolution of lines 245-260
    (`sys.modules`, `getattr` on the current module, `importlib`), abstracted
    as a partial map from (current module, type name) to a class; a failure
    anywhere in that chain (the `except` at line 263) is `none`;
  * `builtin_module_names`: `sys.builtin_module_names`.

A class whose field extraction (the `try` block, lines 131-223) raises midway
is modelled by `failAfter = some k`: the exception is caught at line 224 after
`k` fields were gathered, and the class is still entered into `class_map` with
those `k` fields.
-/

structure ClassDef where
  name : String
  module : String
  is_enum : Bool
  fields : List (String × TypeExpr)
  failAfter : Option Nat
deriving Repr

/-- The `fields` dict a `process_class` call gathers inside its `try` block:
enum members get an empty type info (lines 199-205), other classes get
`parse_field_type` of each annotation (lines 143-223); when the block raises
after `k` fields, only the first `k` are kept (line 224). -/
def gathered_fields (cls : ClassDef) : List (String × TypeInfo) :=
  let upto := match cls.failAfter with
    | some k => cls.fields.take k
    | none => cls.fields
  if cls.is_enum then
    upto.map (fun p => (p.1, { display := "", types := [] }))
  else
    upto.map (fun p => (p.1, parse_field_type p.2))

/-- The placeholder entry of lines 266-271 for an unresolvable type name. -/
def placeholder_entry : ClassEntry :=
  { fields := [], module := none, «local» := false, is_enum := false }

/-- The mutable state of `build_class_map`: the `visited_classes` set, the
`class_map` dict (insertion-ordered, as Python dicts are), and — as proof
instrumentation — the `trace` of class names whose processing body was
entered (one append each time the guard at lines 127-129 is passed). -/
structure BCState where
  visited : List String
  class_map : List (String × ClassEntry)
  trace : List String
deriving Repr

/-- Python dict assignment `class_map[k] = v`: update in place if the key is
present, append otherwise. -/
def dict_insert (m : List (String × ClassEntry)) (k : String) (v : ClassEntry) :
    List (String × ClassEntry) :=
  if (m.map Prod.fst).contains k then
    m.map (fun p => if p.1 = k then (k, v) else p)
  else
    m ++ [(k, v)]

mutual

/-- Function `process_class` (lines 125-271).  `fuel` is an artifact of the embedding
(Python recursion has no such counter): `none` means the fuel ran out, and
the totality theorem shows fuel beyond the number of distinct class names in
`env` is never exhausted. -/
def process_class (env : List ClassDef) (resolve : String → String → Option ClassDef)
    (builtin_module_names : List String) (module_names : List String) :
    Nat → BCState → ClassDef → Option BCState
  | 0, _, _ => none
  | fuel + 1, st, cls =>
    if st.visited.contains cls.name || (BUILTIN_TYPES builtin_module_names).contains cls.name then
      some st
    else
      let st1 : BCState :=
        { st with visited := cls.name :: st.visited, trace := st.trace ++ [cls.name] }
      let fields := gathered_fields cls
      let entry : ClassEntry :=
        { fields := fields, module := some cls.module,
          «local» := module_names.contains cls.module, is_enum := cls.is_enum }
      let st2 : BCState := { st1 with class_map := dict_insert st1.class_map cls.name entry }
      if cls.is_enum then
        some st2
      else
        process_types env resolve builtin_module_names module_names fuel st2 cls.module
          (fields.flatMap (fun p => p.2.types))
termination_by fuel _ _ => (fuel, 0)

/-- The loop of lines 237-271 over the base type names of the gathered
fields: recursively process each resolvable one, insert a placeholder for
each unresolvable one not already in `class_map`. -/
def process_types (env : List ClassDef) (resolve : String → String → Option ClassDef)
    (builtin_module_names : List String) (module_names : List String) :
    Nat → BCState → String → List String → Option BCState
  | _, st, _, [] => some st
  | fuel, st, current_module, base_type_name :: rest =>
    if base_type_name ≠ "" ∧ ¬ st.visited.contains base_type_name
        ∧ ¬ (BUILTIN_TYPES builtin_module_names).contains base_type_name then
      match resolve current_module base_type_name with
      | some base_cls =>
        match process_class env resolve builtin_module_names module_names fuel st base_cls with
        | some st' =>
          process_types env resolve builtin_module_names module_names fuel st' current_module rest
        | none => none
      | none =>
        let st' : BCState :=
          if (st.class_map.map Prod.fst).contains base_type_name then st
          else { st with class_map := st.class_map ++ [(base_type_name, placeholder_entry)] }
        process_types env resolve builtin_module_names module_names fuel st' current_module rest
    else
      process_types env resolve builtin_module_names module_names fuel st current_module rest
termination_by fuel _ _ ns => (fuel, ns.length + 1)

end

/-- The driver loop of lines 273-281: the classes of each listed module, in
order.  (`inspect.getmembers` enumerates a module's classes sorted by member
name and filtered to `obj.__module__ == module.__name__`; `env`'s list order
stands in for that enumeration order, and a module that fails to import simply
contributes no classes.) -/
def build_class_map (env : List ClassDef) (resolve : String → String → Option ClassDef)
    (builtin_module_names : List String) (module_names : List String) (fuel : Nat) :
    Option BCState :=
  (module_names.flatMap (fun m => env.filter (fun c => c.module == m))).foldlM
    (fun st c => process_class env resolve builtin_module_names module_names fuel st c)
    { visited := [], class_map := [], trace := [] }

/-- The number of class names of `env` not yet visited: the measure that
bounds the recursion depth of `process_class`. -/
def unvisited (env : List ClassDef) (st : BCState) : Nat :=
  ((env.map ClassDef.name).filter (fun n => !(st.visited.contains n))).length

/-- State evolution of `build_class_map`: the visited set only grows, an
entry of a visited class is never overwritten, the trace of processed names
stays duplicate-free and inside the visited set, and the `class_map` keys
stay duplicate-free. -/
def StPres (st st' : BCState) : Prop :=
  (∀ n, st.visited.contains n = true → st'.visited.contains n = true) ∧
  (∀ n e, st.visited.contains n = true → st.class_map.lookup n = some e →
      st'.class_map.lookup n = some e) ∧
  (st.trace.Nodup ∧ (∀ n ∈ st.trace, st.visited.contains n = true) →
      st'.trace.Nodup ∧ (∀ n ∈ st'.trace, st'.visited.contains n = true)) ∧
  ((st.class_map.map Prod.fst).Nodup → (st'.class_map.map Prod.fst).Nodup)

/-- Concrete mutually-referential class graph: `A` has a field of type `B`
and `B` a field of type `A` (the cyclic situation of the spec). -/
def env_ab : List ClassDef :=
  [{ name := "A", module := "m", is_enum := false, fields := [("b", .named "B")],
     failAfter := none },
   { name := "B", module := "m", is_enum := false, fields := [("a", .named "A")],
     failAfter := none }]

/-- Name resolution over `env_ab` by class name. -/
def resolve_ab : String → String → Option ClassDef :=
  fun _ n => env_ab.find? (fun c => c.name == n)

/-- A class whose field extraction raises after one field was gathered and
whose second field references an unresolvable name. -/
def cls_fail : ClassDef :=
  { name := "C", module := "m", is_enum := false,
    fields := [("a", .named "int"), ("b", .named "Missing")], failAfter := some 1 }

/-- An interpreter environment holding only `cls_fail`. -/
def env_fail : List ClassDef :=
  [cls_fail]

/-- A concrete `class_map` in the shape produced for the repository's
`schemas.comment` module: `Comment` references `User`, which is present. -/
def cm_viz : List (String × ClassEntry) :=
  [("Comment",
    { fields := [("id", { display := "int", types := ["int"] }),
                 ("author", { display := "User", types := ["User"] })],
      module := some "schemas.comment", «local» := true, is_enum := false }),
   ("User",
    { fields := [("id", { display := "int", types := ["int"] })],
      module := some "schemas.user", «local» := false, is_enum := false })]

/-- A `class_map` holding a local class `Alpha` and an external class `Beta`,
both with fields. -/
def cm_localext : List (String × ClassEntry) :=
  [("Alpha",
    { fields := [("x", { display := "int", types := ["int"] })],
      module := some "m1", «local» := true, is_enum := false }),
   ("Beta",
    { fields := [("y", { display := "int", types := ["int"] })],
      module := some "m2", «local» := false, is_enum := false })]


/-! ## Helper lemmas on the dict model and the recursion measure -/

theorem lookup_append_of_none {m1 m2 : List (String × ClassEntry)} {n : String}
    (h : m1.lookup n = none) : (m1 ++ m2).lookup n = m2.lookup n := by
  induction m1 with
  | nil => simp
  | cons p ps ih =>
    simp only [List.lookup] at h
    cases hb : (n == p.1) with
    | true => rw [hb] at h; cases h
    | false =>
      rw [hb] at h
      simpa [List.lookup, hb] using ih h

theorem lookup_append_left {m1 m2 : List (String × ClassEntry)} {n : String}
    {e : ClassEntry} (h : m1.lookup n = some e) : (m1 ++ m2).lookup n = some e := by
  induction m1 with
  | nil => simp [List.lookup] at h
  | cons p ps ih =>
    simp only [List.lookup] at h
    cases hb : (n == p.1) with
    | true => rw [hb] at h; simpa [List.lookup, hb] using h
    | false =>
      rw [hb] at h
      simpa [List.lookup, hb] using ih h

theorem lookup_none_of_not_contains {m : List (String × ClassEntry)} {n : String}
    (h : (m.map Prod.fst).contains n = false) : m.lookup n = none := by
  induction m with
  | nil => simp
  | cons p ps ih =>
    simp only [List.map_cons, List.contains_cons, Bool.or_eq_false_iff] at h
    simp only [List.lookup, h.1, ih h.2]

theorem lookup_map_update_self (m : List (String × ClassEntry)) (k : String)
    (v : ClassEntry) (hc : (m.map Prod.fst).contains k = true) :
    (m.map (fun p => if p.1 = k then (k, v) else p)).lookup k = some v := by
  induction m with
  | nil => simp at hc
  | cons p ps ih =>
    simp only [List.map_cons]
    by_cases hp : p.1 = k
    · rw [if_pos hp]
      simp [List.lookup]
    · rw [if_neg hp]
      have hne : (k == p.1) = false := by
        simp only [beq_eq_false_iff_ne, ne_eq]
        exact fun he => hp he.symm
      simp only [List.map_cons, List.contains_cons, Bool.or_eq_true, beq_iff_eq] at hc
      rcases hc with hc | hc
      · exact absurd hc.symm hp
      · simp only [List.lookup, hne]
        exact ih hc

theorem lookup_map_update_ne (m : List (String × ClassEntry)) (k : String)
    (v : ClassEntry) {n : String} (h : n ≠ k) :
    (m.map (fun p => if p.1 = k then (k, v) else p)).lookup n = m.lookup n := by
  induction m with
  | nil => simp
  | cons p ps ih =>
    simp only [List.map_cons]
    by_cases hp : p.1 = k
    · rw [if_pos hp]
      have hne : (n == k) = false := by simpa using h
      have hne' : (n == p.1) = false := by rw [hp]; exact hne
      simp only [List.lookup, hne, hne']
      exact ih
    · rw [if_neg hp]
      simp only [List.lookup]
      cases hb : (n == p.1) with
      | true => rfl
      | false => exact ih

theorem lookup_dict_insert_self (m : List (String × ClassEntry)) (k : String)
    (v : ClassEntry) : (dict_insert m k v).lookup k = some v := by
  unfold dict_insert
  cases hc : (m.map Prod.fst).contains k with
  | true => simpa [hc] using lookup_map_update_self m k v hc
  | false =>
    rw [if_neg (by simp [hc])]
    rw [lookup_append_of_none (lookup_none_of_not_contains hc)]
    simp [List.lookup]

theorem lookup_dict_insert_ne (m : List (String × ClassEntry)) (k : String)
    (v : ClassEntry) {n : String} (h : n ≠ k) :
    (dict_insert m k v).lookup n = m.lookup n := by
  unfold dict_insert
  cases hc : (m.map Prod.fst).contains k with
  | true => simpa [hc] using lookup_map_update_ne m k v h
  | false =>
    rw [if_neg (by simp [hc])]
    cases hl : m.lookup n with
    | some e => exact lookup_append_left hl
    | none =>
      rw [lookup_append_of_none hl]
      have : (n == k) = false := by simpa using h
      simp [List.lookup, this]

theorem keys_dict_insert (m : List (String × ClassEntry)) (k : String)
    (v : ClassEntry) :
    (dict_insert m k v).map Prod.fst =
      if (m.map Prod.fst).contains k then m.map Prod.fst
      else m.map Prod.fst ++ [k] := by
  unfold dict_insert
  cases hc : (m.map Prod.fst).contains k with
  | true =>
    simp only [hc, if_true, List.map_map]
    apply List.map_congr_left
    intro p _
    by_cases hp : p.1 = k
    · simp [hp]
    · simp [hp]
  | false => simp [hc]

theorem keys_nodup_dict_insert {m : List (String × ClassEntry)} (k : String)
    (v : ClassEntry) (h : (m.map Prod.fst).Nodup) :
    ((dict_insert m k v).map Prod.fst).Nodup := by
  rw [keys_dict_insert]
  cases hc : (m.map Prod.fst).contains k with
  | true => simpa [hc] using h
  | false =>
    have hk : k ∉ m.map Prod.fst := by simpa using hc
    simp only [hc, if_false, Bool.false_eq_true]
    exact (List.nodup_append).2 ⟨h, List.nodup_singleton k, by
      intro a ha hb
      simp only [List.mem_singleton] at hb
      exact hk (hb ▸ ha)⟩

theorem length_filter_lt {p q : String → Bool} (l : List String)
    (hmono : ∀ x, p x = true → q x = true) (a : String) (ha : a ∈ l)
    (hqa : q a = true) (hpa : p a = false) :
    (l.filter p).length < (l.filter q).length := by
  have hsub : List.Sublist (l.filter p) (l.filter q) := List.monotone_filter_right l hmono
  rcases Nat.lt_or_ge (l.filter p).length (l.filter q).length with h | h
  · exact h
  · exfalso
    have heq : l.filter p = l.filter q :=
      hsub.eq_of_length (Nat.le_antisymm hsub.length_le h)
    have : a ∈ l.filter p := heq ▸ (List.mem_filter.2 ⟨ha, hqa⟩)
    have := (List.mem_filter.1 this).2
    rw [hpa] at this
    cases this

theorem unvisited_le_of_visited_mono {env : List ClassDef} {st st' : BCState}
    (h : ∀ n, st.visited.contains n = true → st'.visited.contains n = true) :
    unvisited env st' ≤ unvisited env st := by
  unfold unvisited
  apply List.Sublist.length_le
  apply List.monotone_filter_right
  intro x hx
  simp only [Bool.not_eq_true'] at hx ⊢
  cases hc : st.visited.contains x with
  | false => rfl
  | true => rw [h x hc] at hx; cases hx

theorem unvisited_insert_lt {env : List ClassDef} {st : BCState} {n : String}
    (hn : n ∈ env.map ClassDef.name) (hv : st.visited.contains n = false)
    {c : List (String × ClassEntry)} {t : List String} :
    unvisited env { visited := n :: st.visited, class_map := c, trace := t } <
      unvisited env st := by
  unfold unvisited
  refine length_filter_lt _ (fun x hx => ?_) n hn ?_ ?_
  · simp only [List.contains_cons, Bool.not_eq_true', Bool.or_eq_false_iff] at hx
    simp only [Bool.not_eq_true', hx.2]
  · simpa only [Bool.not_eq_true'] using hv
  · simp

theorem unvisited_le_length (env : List ClassDef) (st : BCState) :
    unvisited env st ≤ env.length := by
  unfold unvisited
  calc ((env.map ClassDef.name).filter _).length
      ≤ (env.map ClassDef.name).length := (List.filter_sublist _).length_le
    _ = env.length := List.length_map _ _

theorem StPres.rfl (st : BCState) : StPres st st :=
  ⟨fun _ h => h, fun _ _ _ h => h, fun h => h, fun h => h⟩

theorem StPres.trans {s1 s2 s3 : BCState} (h12 : StPres s1 s2) (h23 : StPres s2 s3) :
    StPres s1 s3 :=
  ⟨fun n h => h23.1 n (h12.1 n h),
   fun n e hv hl => h23.2.1 n e (h12.1 n hv) (h12.2.1 n e hv hl),
   fun h => h23.2.2.1 (h12.2.2.1 h),
   fun h => h23.2.2.2 (h12.2.2.2 h)⟩

/-- The state change of the body of `process_class` once the guard at lines
127-129 has been passed: mark visited, record the trace, insert the entry. -/
theorem StPres_insert_step {st : BCState} {cls_name : String} {entry : ClassEntry}
    (hv : st.visited.contains cls_name = false) :
    StPres st
      { visited := cls_name :: st.visited,
        class_map := dict_insert st.class_map cls_name entry,
        trace := st.trace ++ [cls_name] } := by
  refine ⟨?_, ?_, ?_, ?_⟩
  · intro n h
    simp only [List.contains_cons, Bool.or_eq_true]
    exact Or.inr h
  · intro n e hnv hl
    have hne : n ≠ cls_name := by
      intro he
      rw [he, hv] at hnv
      cases hnv
    simpa using (lookup_dict_insert_ne st.class_map cls_name entry hne) ▸ hl
  · rintro ⟨hnd, hsub⟩
    constructor
    · simp only [List.nodup_append, List.nodup_singleton, true_and]
      refine ⟨hnd, ?_⟩
      intro a ha hb
      simp only [List.mem_singleton] at hb
      subst hb
      rw [hsub a ha] at hv
      cases hv
    · intro n hn
      simp only [List.mem_append, List.mem_singleton] at hn
      simp only [List.contains_cons, Bool.or_eq_true]
      rcases hn with hn | hn
      · exact Or.inr (hsub n hn)
      · subst hn; simp
  · intro h
    exact keys_nodup_dict_insert _ _ h

/-- The state change of the placeholder insertion at lines 265-271. -/
theorem StPres_placeholder_step {st : BCState} {n : String}
    (hk : (st.class_map.map Prod.fst).contains n = false) :
    StPres st { st with class_map := st.class_map ++ [(n, placeholder_entry)] } := by
  refine ⟨fun _ h => h, ?_, fun h => h, ?_⟩
  · intro n' e _ hl
    exact lookup_append_left hl
  · intro h
    simp only [List.map_append, List.map_cons, List.map_nil]
    rw [List.nodup_append]
    refine ⟨h, List.nodup_singleton n, ?_⟩
    intro a ha hb
    simp only [List.mem_singleton] at hb
    subst hb
    have : a ∉ st.class_map.map Prod.fst := by simpa using hk
    exact this ha

mutual

/-- Every completed `process_class` call only evolves the state in the
`StPres` sense. -/
theorem process_class_pres (env : List ClassDef)
    (resolve : String → String → Option ClassDef) (bm mn : List String) :
    ∀ fuel st cls st',
      process_class env resolve bm mn fuel st cls = some st' → StPres st st'
  | 0, st, cls, st' => by
    intro h
    simp [process_class] at h
  | fuel + 1, st, cls, st' => by
    intro h
    simp only [process_class] at h
    split at h
    · next hguard =>
      cases h
      exact StPres.rfl _
    · next hguard =>
      have hv : st.visited.contains cls.name = false :=
        (Bool.or_eq_false_iff.1 (Bool.eq_false_iff.2 hguard)).1
      split at h
      · next henum =>
        cases h
        exact StPres_insert_step hv
      · next henum =>
        exact (StPres_insert_step hv).trans
          (process_types_pres env resolve bm mn fuel _ cls.module _ st' h)
termination_by fuel _ _ _ => (fuel, 0)

/-- Every completed `process_types` loop only evolves the state in the
`StPres` sense. -/
theorem process_types_pres (env : List ClassDef)
    (resolve : String → String → Option ClassDef) (bm mn : List String) :
    ∀ fuel st current_module ns st',
      process_types env resolve bm mn fuel st current_module ns = some st' →
        StPres st st'
  | _, st, _, [], st' => by
    intro h
    simp only [process_types] at h
    cases h
    exact StPres.rfl _
  | fuel, st, m, n :: rest, st' => by
    intro h
    simp only [process_types] at h
    split at h
    · next hguard =>
      split at h
      · next c hr =>
        split at h
        · next st1 hst1 =>
          exact (process_class_pres env resolve bm mn fuel st c st1 hst1).trans
            (process_types_pres env resolve bm mn fuel st1 m rest st' h)
        · next hst1 =>
          cases h
      · next hr =>
        by_cases hk : (st.class_map.map Prod.fst).contains n = true
        · rw [if_pos hk] at h
          exact process_types_pres env resolve bm mn fuel st m rest st' h
        · rw [if_neg hk] at h
          have hk' : (st.class_map.map Prod.fst).contains n = false :=
            Bool.not_eq_true _ ▸ hk
          exact (StPres_placeholder_step hk').trans
            (process_types_pres env resolve bm mn fuel _ m rest st' h)
    · next hguard =>
      exact process_types_pres env resolve bm mn fuel st m rest st' h
termination_by fuel _ _ ns _ => (fuel, ns.length + 1)

end

mutual

/-- Termination: when the fuel exceeds the number of not-yet-visited class
names of `env`, `process_class` never exhausts it.  `hres` states that name
resolution only ever produces classes that exist in the interpreter. -/
theorem process_class_total (env : List ClassDef)
    (resolve : String → String → Option ClassDef) (bm mn : List String)
    (hres : ∀ m n c, resolve m n = some c → c ∈ env) :
    ∀ fuel st cls, cls ∈ env → unvisited env st < fuel →
      (process_class env resolve bm mn fuel st cls).isSome
  | 0, st, cls => by
    intro _ hlt
    exact absurd hlt (Nat.not_lt_zero _)
  | fuel + 1, st, cls => by
    intro hcls hlt
    simp only [process_class]
    split
    · next hguard => simp
    · next hguard =>
      have hv : st.visited.contains cls.name = false :=
        (Bool.or_eq_false_iff.1 (Bool.eq_false_iff.2 hguard)).1
      have hname : cls.name ∈ env.map ClassDef.name := List.mem_map_of_mem _ hcls
      have hdec : unvisited env
          { visited := cls.name :: st.visited,
            class_map := dict_insert st.class_map cls.name
              { fields := gathered_fields cls, module := some cls.module,
                «local» := mn.contains cls.module, is_enum := cls.is_enum },
            trace := st.trace ++ [cls.name] } < unvisited env st :=
        unvisited_insert_lt hname hv
      split
      · simp
      · exact process_types_total env resolve bm mn hres fuel _ cls.module _
          (Nat.lt_of_lt_of_le hdec (Nat.lt_succ_iff.1 hlt))
termination_by fuel _ _ => (fuel, 0)

/-- Termination of the base-type loop under the same fuel bound. -/
theorem process_types_total (env : List ClassDef)
    (resolve : String → String → Option ClassDef) (bm mn : List String)
    (hres : ∀ m n c, resolve m n = some c → c ∈ env) :
    ∀ fuel st current_module ns, unvisited env st < fuel →
      (process_types env resolve bm mn fuel st current_module ns).isSome
  | fuel, st, m, [] => by
    intro _
    simp [process_types]
  | fuel, st, m, n :: rest => by
    intro hlt
    simp only [process_types]
    split
    · next hguard =>
      split
      · next c hr =>
        split
        · next st1 hst1 =>
          have hmono := (process_class_pres env resolve bm mn fuel st c st1 hst1).1
          have hle : unvisited env st1 ≤ unvisited env st :=
            unvisited_le_of_visited_mono hmono
          exact process_types_total env resolve bm mn hres fuel st1 m rest
            (Nat.lt_of_le_of_lt hle hlt)
        · next hst1 =>
          have h1 : (process_class env resolve bm mn fuel st c).isSome :=
            process_class_total env resolve bm mn hres fuel st c (hres m n c hr) hlt
          rw [hst1] at h1
          simp at h1
      · next hr =>
        by_cases hk : (st.class_map.map Prod.fst).contains n = true
        · rw [if_pos hk]
          exact process_types_total env resolve bm mn hres fuel st m rest hlt
        · rw [if_neg hk]
          exact process_types_total env resolve bm mn hres fuel _ m rest hlt
    · next hguard =>
      exact process_types_total env resolve bm mn hres fuel st m rest hlt
termination_by fuel _ _ ns => (fuel, ns.length + 1)

end

/-- Folding `process_class` over any list of environment classes with fuel
`|env| + 1` completes, and evolves the state in the `StPres` sense. -/
theorem foldl_process_exists (env : List ClassDef)
    (resolve : String → String → Option ClassDef) (bm mn : List String)
    (hres : ∀ m n c, resolve m n = some c → c ∈ env) :
    ∀ (L : List ClassDef) (st : BCState), (∀ c ∈ L, c ∈ env) →
      ∃ st', L.foldlM
          (fun s c => process_class env resolve bm mn (env.length + 1) s c) st
          = some st' ∧ StPres st st' := by
  intro L
  induction L with
  | nil =>
    intro st _
    exact ⟨st, by simp, StPres.rfl st⟩
  | cons c L ih =>
    intro st hmem
    have hc : c ∈ env := hmem c (List.mem_cons_self c L)
    have h1 : (process_class env resolve bm mn (env.length + 1) st c).isSome :=
      process_class_total env resolve bm mn hres _ st c hc
        (Nat.lt_succ_of_le (unvisited_le_length env st))
    cases hst1 : process_class env resolve bm mn (env.length + 1) st c with
    | none =>
      rw [hst1] at h1
      simp at h1
    | some st1 =>
      obtain ⟨st', hfold, hpres⟩ := ih st1 (fun d hd => hmem d (List.mem_cons_of_mem _ hd))
      refine ⟨st', ?_, (process_class_pres env resolve bm mn _ st c st1 hst1).trans hpres⟩
      simp only [List.foldlM_cons, hst1, Option.bind_some]
      exact hfold

/-- One successful step of `process_class` on an unvisited, non-builtin,
non-enum class: mark it visited, insert its entry, and hand the gathered
base type names to the resolution loop. -/
theorem process_class_step (env : List ClassDef)
    (resolve : String → String → Option ClassDef) (bm mn : List String)
    (fuel : Nat) (st : BCState) (cls : ClassDef)
    (hv : st.visited.contains cls.name = false)
    (hb : (BUILTIN_TYPES bm).contains cls.name = false)
    (henum : cls.is_enum = false) :
    process_class env resolve bm mn (fuel + 1) st cls =
      process_types env resolve bm mn fuel
        { visited := cls.name :: st.visited,
          class_map := dict_insert st.class_map cls.name
            { fields := gathered_fields cls, module := some cls.module,
              «local» := mn.contains cls.module, is_enum := cls.is_enum },
          trace := st.trace ++ [cls.name] }
        cls.module ((gathered_fields cls).flatMap (fun p => p.2.types)) := by
  simp only [process_class]
  rw [if_neg (by simp only [Bool.or_eq_true]; rw [hv, hb]; simp)]
  simp [henum]

/-- C2: For every collection of class definitions — including
self-referential and mutually-referential cycles — `build_class_map`
terminates (fuel `|env| + 1` is never exhausted) and produces a `class_map`
with no duplicate entries; `process_class` returns immediately for a class
whose name is already in the visited set, and the trace of processed class
names has no duplicates (each class name is processed at most once). -/
theorem claim_C2 (env : List ClassDef) (resolve : String → String → Option ClassDef)
    (bm mn : List String)
    (hres : ∀ m n c, resolve m n = some c → c ∈ env) :
    (∃ st, build_class_map env resolve bm mn (env.length + 1) = some st ∧
      st.trace.Nodup ∧ (st.class_map.map Prod.fst).Nodup) ∧
    (∀ fuel st cls, st.visited.contains cls.name = true →
      process_class env resolve bm mn (fuel + 1) st cls = some st) := by
  constructor
  · have hmem : ∀ c ∈ mn.flatMap (fun m => env.filter (fun d => d.module == m)), c ∈ env := by
      intro c hc
      rcases List.mem_flatMap.1 hc with ⟨m, _, hcf⟩
      exact (List.mem_filter.1 hcf).1
    obtain ⟨st', hfold, hpres⟩ := foldl_process_exists env resolve bm mn hres _
      { visited := [], class_map := [], trace := [] } hmem
    refine ⟨st', hfold, ?_, ?_⟩
    · exact (hpres.2.2.1 ⟨List.nodup_nil, by simp⟩).1
    · exact hpres.2.2.2 (by simp)
  · intro fuel st cls hv
    simp only [process_class]
    rw [if_pos (by rw [hv]; simp)]

/-- Witness for C2: the concrete two-class cycle `A ↔ B`, rooted at module
`m`, builds completely with duplicate-free trace and `class_map` keys. -/
theorem claim_C2_witness :
    (∃ st, build_class_map env_ab resolve_ab [] ["m"] (env_ab.length + 1) = some st ∧
      st.trace.Nodup ∧ (st.class_map.map Prod.fst).Nodup) ∧
    (∀ fuel st cls, st.visited.contains cls.name = true →
      process_class env_ab resolve_ab [] ["m"] (fuel + 1) st cls = some st) :=
  claim_C2 env_ab resolve_ab [] ["m"] (fun _ _ _ h => List.mem_of_find?_eq_some h)

/-- C10: the function `process_class` never propagates an exception: with sufficient fuel
it always returns a state (first conjunct: the call completes even for a
class whose field extraction raises after `k` fields, and that class is still
entered into `class_map` with the fields gathered so far); and a referenced
type name that cannot be resolved or imported gets a placeholder entry with
empty fields, module `None`, `local` `False` and `is_enum` `False`, provided
it is not already in `class_map` (second conjunct). -/
theorem claim_C10 (env : List ClassDef) (resolve : String → String → Option ClassDef)
    (bm mn : List String) (st : BCState) (cls : ClassDef) (k : Nat)
    (hres : ∀ m n c, resolve m n = some c → c ∈ env)
    (hcls : cls ∈ env)
    (hfail : cls.failAfter = some k)
    (henum : cls.is_enum = false)
    (hv : st.visited.contains cls.name = false)
    (hb : (BUILTIN_TYPES bm).contains cls.name = false) :
    (∃ st', process_class env resolve bm mn (unvisited env st + 1) st cls = some st' ∧
      st'.class_map.lookup cls.name = some
        { fields := (cls.fields.take k).map (fun p => (p.1, parse_field_type p.2)),
          module := some cls.module, «local» := mn.contains cls.module,
          is_enum := cls.is_enum }) ∧
    (∀ fuel m n rest st0, n ≠ "" → st0.visited.contains n = false →
      (BUILTIN_TYPES bm).contains n = false → resolve m n = none →
      (st0.class_map.map Prod.fst).contains n = false →
      process_types env resolve bm mn fuel st0 m (n :: rest) =
        process_types env resolve bm mn fuel
          { st0 with class_map := st0.class_map ++ [(n, placeholder_entry)] }
          m rest) := by
  constructor
  · rw [process_class_step env resolve bm mn (unvisited env st) st cls hv hb henum]
    have hname : cls.name ∈ env.map ClassDef.name := List.mem_map_of_mem _ hcls
    have hdec := unvisited_insert_lt hname hv
      (c := dict_insert st.class_map cls.name
        { fields := gathered_fields cls, module := some cls.module,
          «local» := mn.contains cls.module, is_enum := cls.is_enum })
      (t := st.trace ++ [cls.name])
    have htot := process_types_total env resolve bm mn hres (unvisited env st) _
      cls.module ((gathered_fields cls).flatMap (fun p => p.2.types)) hdec
    cases heval : process_types env resolve bm mn (unvisited env st)
        { visited := cls.name :: st.visited,
          class_map := dict_insert st.class_map cls.name
            { fields := gathered_fields cls, module := some cls.module,
              «local» := mn.contains cls.module, is_enum := cls.is_enum },
          trace := st.trace ++ [cls.name] }
        cls.module ((gathered_fields cls).flatMap (fun p => p.2.types)) with
    | none =>
      rw [heval] at htot
      simp at htot
    | some st' =>
      refine ⟨st', rfl, ?_⟩
      have hpres := process_types_pres env resolve bm mn (unvisited env st) _
        cls.module _ st' heval
      have hlook := hpres.2.1 cls.name
        { fields := gathered_fields cls, module := some cls.module,
          «local» := mn.contains cls.module, is_enum := cls.is_enum }
        (by simp) (lookup_dict_insert_self _ _ _)
      rw [hlook]
      simp [gathered_fields, hfail, henum]
  · intro fuel m n rest st0 hn hv0 hb0 hr hk
    simp only [process_types]
    rw [if_pos ⟨hn, Bool.eq_false_iff.1 hv0, Bool.eq_false_iff.1 hb0⟩]
    rw [hr, if_neg (Bool.eq_false_iff.1 hk)]

/-- Witness for C10: the concrete class `cls_fail` (extraction fails after
one field, resolution always fails) completes and is entered with its first
field only; the placeholder equation holds at `Missing`. -/
theorem claim_C10_witness :
    (∃ st', process_class env_fail (fun _ _ => none) [] ["m"]
        (unvisited env_fail { visited := [], class_map := [], trace := [] } + 1)
        { visited := [], class_map := [], trace := [] } cls_fail = some st' ∧
      st'.class_map.lookup cls_fail.name = some
        { fields := (cls_fail.fields.take 1).map (fun p => (p.1, parse_field_type p.2)),
          module := some cls_fail.module, «local» := ["m"].contains cls_fail.module,
          is_enum := cls_fail.is_enum }) ∧
    (∀ fuel m n rest st0, n ≠ "" → st0.visited.contains n = false →
      (BUILTIN_TYPES []).contains n = false → (fun _ _ => none : String → String → Option ClassDef) m n = none →
      (st0.class_map.map Prod.fst).contains n = false →
      process_types env_fail (fun _ _ => none) [] ["m"] fuel st0 m (n :: rest) =
        process_types env_fail (fun _ _ => none) [] ["m"] fuel
          { st0 with class_map := st0.class_map ++ [(n, placeholder_entry)] }
          m rest) :=
  claim_C10 env_fail (fun _ _ => none) [] ["m"]
    { visited := [], class_map := [], trace := [] } cls_fail 1
    (fun _ _ _ h => Option.noConfusion h)
    (List.mem_cons_self _ _) rfl rfl rfl (by decide)

/-- C1 fails as stated: for `Optional[int]` (= `Union[int, None]`) the
returned `types` list carries an extra `"NoneType"` entry, so it is not equal
to the `types` list of `int` alone. -/
theorem claim_C1_counterexample :
    (parse_field_type (.union [.named "int", .noneT])).types ≠
      (parse_field_type (.named "int")).types := by
  decide

/-- C1 (amended): for every type `T`, `parse_field_type` on `Optional[T]`
(= `Union[T, None]`, the same object) returns the `types` list of `T` alone
with `"NoneType"` appended — the same non-`None` leaf names in the same
order, plus the `"NoneType"` entry contributed by the `None` branch. -/
theorem claim_C1_amended (t : TypeExpr) :
    (parse_field_type (.union [t, .noneT])).types =
      (parse_field_type t).types ++ ["NoneType"] := by
  cases t <;> simp [parse_field_type, union_type_names, contains_none]

/-- C7: the function `parse_field_type` is deterministic — equal input type expressions
give equal results (the embedded function is pure, exactly as the source
function, which reads no mutable state). -/
theorem claim_C7 (t u : TypeExpr) (h : t = u) :
    parse_field_type t = parse_field_type u := by
  rw [h]

/-- Witness for C7 at a concrete type expression. -/
theorem claim_C7_witness :
    parse_field_type (.named "User") = parse_field_type (.named "User") :=
  claim_C7 (.named "User") (.named "User") rfl

/-- C8: `parse_field_type` is total and always returns the
`display`/`types` shape (first conjunct: every result is literally a record
with exactly those two components); an unparameterized `List` or `Dict` (and
any `Dict` whose argument count is not 2) and an object without `__name__`
yield an empty `types` list. -/
theorem claim_C8 :
    (∀ t : TypeExpr, ∃ d ts, parse_field_type t = { display := d, types := ts }) ∧
    parse_field_type (.listT []) = { display := "List", types := [] } ∧
    parse_field_type (.dictT []) = { display := "Dict", types := [] } ∧
    (∀ args : List TypeExpr, args.length ≠ 2 →
      parse_field_type (.dictT args) = { display := "Dict", types := [] }) ∧
    (∀ s, parse_field_type (.unnamed s) = { display := s, types := [] }) := by
  refine ⟨fun t => ⟨(parse_field_type t).display, (parse_field_type t).types, rfl⟩,
    by simp [parse_field_type], by simp [parse_field_type], ?_, fun s => by simp [parse_field_type]⟩
  intro args h
  match args with
  | [] => simp [parse_field_type]
  | [a] => simp [parse_field_type]
  | [a, b] => simp at h
  | a :: b :: c :: rest => simp [parse_field_type]

/-- Witness for C8 at a one-argument `Dict`. -/
theorem claim_C8_witness :
    parse_field_type (.dictT [.named "User"]) = { display := "Dict", types := [] } :=
  claim_C8.2.2.2.1 [.named "User"] (by decide)

/-- C5 fails as stated: a `set`-of-`User` type falls into the default branch
of `parse_field_type` — its display is the bare origin name `"set"` (not a
wrapped display) and its leaf list is `["set"]`, not the argument's leaf
list. -/
theorem claim_C5_counterexample :
    (parse_field_type (.setT [.named "User"])).types ≠
      (parse_field_type (.named "User")).types ∧
    (parse_field_type (.setT [.named "User"])).display = "set" := by
  decide

/-- C5 (amended): the function `parse_field_type` recursively resolves the arguments of
optional, union, list and dict forms, wrapping the argument displays and
concatenating the argument leaf-type lists; `set` and `tuple` generics are
NOT destructured — they fall through to the default branch and produce the
origin's name (`"set"` / `"tuple"`) as both display and sole leaf entry. -/
theorem claim_C5_amended (a k v : TypeExpr) (rest args : List TypeExpr) :
    (parse_field_type (.listT (a :: rest)) =
      { display := "List[" ++ (parse_field_type a).display ++ "]",
        types := (parse_field_type a).types }) ∧
    (parse_field_type (.dictT [k, v]) =
      { display := "Dict[" ++ (parse_field_type k).display ++ ", "
          ++ (parse_field_type v).display ++ "]",
        types := (parse_field_type k).types ++ (parse_field_type v).types }) ∧
    (a ≠ .noneT →
      parse_field_type (.union [a, .noneT]) =
        { display := "Optional[" ++ (parse_field_type a).display ++ "]",
          types := (parse_field_type a).types ++ ["NoneType"] }) ∧
    (a ≠ .noneT → v ≠ .noneT →
      parse_field_type (.union [a, v]) =
        { display := "Union[" ++ (parse_field_type a).display ++ ", "
            ++ (parse_field_type v).display ++ "]",
          types := (parse_field_type a).types ++ (parse_field_type v).types }) ∧
    parse_field_type (.setT args) = { display := "set", types := ["set"] } ∧
    parse_field_type (.tupleT args) = { display := "tuple", types := ["tuple"] } := by
  refine ⟨by simp [parse_field_type], by simp [parse_field_type], ?_, ?_,
    by simp [parse_field_type], by simp [parse_field_type]⟩
  · intro ha
    cases a <;>
      simp_all [parse_field_type, union_type_names, union_type_displays,
        contains_none, first_non_none_display]
  · intro ha hv
    cases a <;> cases v <;>
      simp_all [parse_field_type, union_type_names, union_type_displays,
        contains_none, first_non_none_display, String.intercalate,
        String.intercalate.go, String.append_assoc] <;>
      (try (rw [← String.append_assoc]; congr 1))

/-- Witness for C5 (amended) at `Optional[User]`. -/
theorem claim_C5_amended_witness :
    parse_field_type (.union [.named "User", .noneT]) =
      { display := "Optional[" ++ (parse_field_type (.named "User")).display ++ "]",
        types := (parse_field_type (.named "User")).types ++ ["NoneType"] } :=
  (claim_C5_amended (.named "User") (.named "str") (.named "Post") [] []).2.2.1
    (fun hc => TypeExpr.noConfusion hc)

/-- C9: the function `sanitize_name` produces only characters of the class
`[a-zA-Z0-9_]`, is idempotent, and two names of equal length that differ
only at non-alphanumeric characters sanitize to the same node name. -/
theorem claim_C9 :
    (∀ s : String, ∀ c ∈ (sanitize_name s).data, sanitize_keep c = true) ∧
    (∀ s : String, sanitize_name (sanitize_name s) = sanitize_name s) ∧
    (∀ s t : String, s.data.length = t.data.length →
      (∀ p ∈ s.data.zip t.data,
        p.1 = p.2 ∨ (p.1.isAlphanum = false ∧ p.2.isAlphanum = false)) →
      sanitize_name s = sanitize_name t) := by
  have hchar : ∀ c : Char, c.isAlphanum = false →
      (if sanitize_keep c = true then c else '_') = '_' := by
    intro c hc
    by_cases hu : c = '_'
    · subst hu
      rfl
    · rw [if_neg]
      simp only [sanitize_keep, hc, Bool.false_or, Bool.or_eq_true, beq_iff_eq]
      simp [hu]
  have hkeepchar : ∀ a : Char,
      sanitize_keep (if sanitize_keep a = true then a else '_') = true := by
    intro a
    by_cases h : sanitize_keep a = true
    · rw [if_pos h]
      exact h
    · rw [if_neg h]
      decide
  refine ⟨?_, ?_, ?_⟩
  · intro s c hc
    unfold sanitize_name at hc
    rcases List.mem_map.1 hc with ⟨a, _, rfl⟩
    exact hkeepchar a
  · intro s
    unfold sanitize_name
    simp only [List.map_map]
    congr 1
    apply List.map_congr_left
    intro a _
    simp only [Function.comp_apply]
    by_cases h : sanitize_keep a = true
    · rw [if_pos h, if_pos h]
    · rw [if_neg h]
      simp
  · intro s t hlen hzip
    unfold sanitize_name
    congr 1
    revert hzip hlen
    generalize s.data = l1
    generalize t.data = l2
    intro hlen hzip
    induction l1 generalizing l2 with
    | nil =>
      cases l2 with
      | nil => rfl
      | cons b l2 => simp at hlen
    | cons a l1 ih =>
      cases l2 with
      | nil => simp at hlen
      | cons b l2 =>
        simp only [List.map_cons]
        have hhead : a = b ∨ (a.isAlphanum = false ∧ b.isAlphanum = false) :=
          hzip (a, b) (by simp)
        have htail : l1.map (fun c => if sanitize_keep c = true then c else '_') =
            l2.map (fun c => if sanitize_keep c = true then c else '_') := by
          refine ih l2 (by simpa using hlen) ?_
          intro p hp
          exact hzip p (by simp [hp])
        rcases hhead with hab | ⟨ha, hb⟩
        · rw [hab, htail]
        · rw [hchar a ha, hchar b hb, htail]

/-- Witness for C9: the names "Foo-Bar" and "Foo.Bar" differ only at a
non-alphanumeric character and sanitize to the same node name. -/
theorem claim_C9_witness :
    sanitize_name "Foo-Bar" = sanitize_name "Foo.Bar" :=
  claim_C9.2.2 "Foo-Bar" "Foo.Bar" (by decide) (by decide)

/-- C3: every edge produced by the edge pass of `visualize_schemas` points
at a node name that exists in the node set built by the first pass (the
membership test on `G.nodes()` guards every `add_edge`). -/
theorem claim_C3 (bm : List String) (cm : List (String × ClassEntry)) (e : VizEdge)
    (he : e ∈ viz_edges bm cm) :
    e.head ∈ (viz_nodes cm).map VizNode.name := by
  simp only [viz_edges, List.mem_flatMap] at he
  obtain ⟨p, _, f, _, he⟩ := he
  simp only [edges_of_field] at he
  obtain ⟨t, _, hsome⟩ := List.mem_filterMap.1 he
  split at hsome
  · split at hsome
    · next hcont =>
      cases hsome
      simpa using hcont
    · cases hsome
  · cases hsome

/-- Witness for C3: the concrete `Comment → User` edge of `cm_viz` points at
the existing `User` node. -/
theorem claim_C3_witness :
    VizEdge.head
        { tail := "Comment", head := "User", tailport := "author_type",
          headport := "class_header" } ∈ (viz_nodes cm_viz).map VizNode.name :=
  claim_C3 [] cm_viz
    { tail := "Comment", head := "User", tailport := "author_type",
      headport := "class_header" }
    (by decide)

/-- C4: a field all of whose leaf type names are built-in types produces no
graph edge (every candidate is filtered out by the `BUILTIN_TYPES` test). -/
theorem claim_C4 (bm node_names : List String) (scn fn : String) (types : List String)
    (h : ∀ t ∈ types, (BUILTIN_TYPES bm).contains t = true) :
    edges_of_field bm node_names scn fn types = [] := by
  induction types with
  | nil => rfl
  | cons t ts ih =>
    have ht := h t (List.mem_cons_self _ _)
    unfold edges_of_field at ih ⊢
    rw [List.filterMap_cons]
    rw [if_neg (fun hc => hc.2 ht)]
    exact ih (fun x hx => h x (List.mem_cons_of_mem _ hx))

/-- Witness for C4: a field typed with only `int` and `str` leaves yields no
edges. -/
theorem claim_C4_witness :
    edges_of_field [] ["User", "Comment"] "Comment" "id" ["int", "str"] = [] :=
  claim_C4 [] ["User", "Comment"] "Comment" "id" ["int", "str"] (by decide)

/-- C6 fails as stated: in `cm_localext` the class `Alpha` is local and
`Beta` is external, yet `visualize_schemas` renders both with identical node
attributes (`plaintext`, no style) — the `local` flag is never consulted, so
local and external classes with fields are not visually distinguished by
border style. -/
theorem claim_C6_counterexample :
    cm_localext.map (fun p => p.2.«local») = [true, false] ∧
    (viz_nodes cm_localext).map (fun v => (v.shape, v.style)) =
      [("plaintext", none), ("plaintext", none)] := by
  decide

/-- C6 (amended): the rendered node attributes are independent of the
`local` flag recorded in `class_map`; the border style distinguishes only
classes with no extracted fields (dashed box placeholders, which include all
unresolvable classes) from classes with fields (plaintext table nodes). -/
theorem claim_C6_amended (cn : String) (info : ClassEntry) (b : Bool) :
    node_of_entry cn { info with «local» := b } = node_of_entry cn info ∧
    (node_of_entry cn info).shape = (if info.fields = [] then "box" else "plaintext") ∧
    (node_of_entry cn info).style =
      (if info.fields = [] then some "dashed" else none) := by
  by_cases h : info.fields = [] <;> simp [node_of_entry, h]
